import Mathlib

/-!
Verification of `identity-resolver` (`src/scripts/identity.py`).

Shallow embedding conventions:
* Python `dict` (insertion-ordered, unique keys) is modelled as an
  association list `List (String × IdentityRecord)`; dict assignment is
  `setKey` (replace the first entry with that key, else append at the end),
  dict lookup is `getKey`.  Key uniqueness, which Python dicts give by
  construction, is carried as an explicit `KeysNodup` hypothesis where a
  theorem needs it.
* Timestamps (`datetime.now(...).isoformat()`) are modelled as an abstract
  clock value `now : Nat` passed to each operation; the several `now()`
  calls inside one operation are identified.
* File IO is erased: each public operation takes the loaded store and
  returns the store as it is persisted after the call, together with a
  `Bool` that records whether `_save_identity_map` was called.
* Python exceptions (`ValueError` from `_sanitize_canonical_id`) become
  `Except IdErr`.
* `str.lower()` is modelled by `Char.toLower`, which agrees with Python on
  ASCII; the sanitizer's character class is ASCII-only, so the two agree on
  everything the code keeps.
* The owner directory (`USER.md` parsing, an external collaborator per the
  spec) is abstracted into two parameters of `resolve_canonical_id`:
  `ownerNumbers` (the extracted owner candidate ids) and `ownerNameToken`
  (`some t` when the file exists and the `Name:` regex matched, `t` being
  the first whitespace-separated token of the match; `none` when the file
  is missing or the regex did not match).
-/

deriving instance DecidableEq for Except

namespace IdentityResolver

/-- Characters kept by `re.sub(r'[^a-z0-9\-_]', '', ...)`:
lowercase ASCII letters, digits, hyphen (code 45), underscore (code 95). -/
def allowedChar (c : Char) : Bool :=
  (97 ≤ c.toNat && c.toNat ≤ 122) || (48 ≤ c.toNat && c.toNat ≤ 57) ||
    c.toNat = 45 || c.toNat = 95

/-- Characters removed by `.strip('-_')`: hyphen and underscore. -/
def stripChar (c : Char) : Bool :=
  c.toNat = 45 || c.toNat = 95

/-- Python `s.strip('-_')` on a list of characters: drop the longest prefix
and the longest suffix of hyphens/underscores. -/
def pyStrip (l : List Char) : List Char :=
  ((l.dropWhile stripChar).reverse.dropWhile stripChar).reverse

/-- The pure part of `_sanitize_canonical_id` (identity.py lines 57-63):
lowercase, remove disallowed characters, strip `-`/`_` at both ends,
truncate to 64 characters. -/
def sanitizeCore (s : String) : List Char :=
  (pyStrip ((s.toList.map Char.toLower).filter allowedChar)).take 64

/-- Errors raised by the library: `ValueError(f"Invalid canonical_id: {raw}")`. -/
inductive IdErr where
  | invalidIdentifier (raw : String) : IdErr
deriving DecidableEq, Repr

/-- `_sanitize_canonical_id` (identity.py lines 49-69): the sanitized result,
or an error when the result is empty, starts with `.`, or contains `/`
(the last two checks are kept from the source even though the character
filter already rules them out). -/
def sanitizeE (raw : String) : Except IdErr String :=
  let r := sanitizeCore raw
  if r.isEmpty || r.headD ' ' = '.' || r.contains '/' then
    .error (.invalidIdentifier raw)
  else
    .ok (String.mk r)

/-- One identity record (the per-user JSON object). -/
structure IdentityRecord where
  canonical_id : String
  is_owner : Bool
  display_name : String
  channels : List String
  created_at : Nat
  updated_at : Nat
deriving DecidableEq, Repr

/-- The versioned store (`{"version": ..., "identities": {...}}`). -/
structure IdentityStore where
  version : String
  identities : List (String × IdentityRecord)
deriving DecidableEq, Repr

/-- The fresh empty store. -/
def emptyStore : IdentityStore := ⟨"1.0", []⟩

/-- Dict lookup: value of the first entry with key `k`. -/
def getKey (l : List (String × IdentityRecord)) (k : String) :
    Option IdentityRecord :=
  match l.find? (fun p => p.1 = k) with
  | some p => some p.2
  | none => none

/-- Dict assignment `d[k] = v`: replace the first entry with key `k`,
or append at the end when the key is absent (insertion order). -/
def setKey : List (String × IdentityRecord) → String → IdentityRecord →
    List (String × IdentityRecord)
  | [], k, v => [(k, v)]
  | p :: rest, k, v =>
      if p.1 = k then (k, v) :: rest else p :: setKey rest k v

/-- Whether the association list has pairwise distinct keys (a Python dict
has this by construction). -/
def KeysNodup (s : IdentityStore) : Prop :=
  (s.identities.map Prod.fst).Nodup

/-- `f"{channel}:{provider_user_id}"`. -/
def mkChannelId (channel provider_user_id : String) : String :=
  channel ++ ":" ++ provider_user_id

/-- The scan at identity.py lines 187-189: key of the first record whose
channel list contains `chid`. -/
def lookupChannel (l : List (String × IdentityRecord)) (chid : String) :
    Option String :=
  match l.find? (fun p => decide (chid ∈ p.2.channels)) with
  | some p => some p.1
  | none => none

/-- The scan at identity.py lines 198-201: first record with `is_owner`. -/
def findOwnerPair (l : List (String × IdentityRecord)) :
    Option (String × IdentityRecord) :=
  l.find? (fun p => p.2.is_owner)

/-- Python `str.capitalize()`: first character uppercased, the rest
lowercased. -/
def pyCapitalize (s : String) : String :=
  match s.toList with
  | [] => ""
  | c :: rest => String.mk (c.toUpper :: rest.map Char.toLower)

/-- Python `display_name or canonical_id.capitalize()` (identity.py line
261): an absent or empty display name falls back to the capitalized id. -/
def displayNameOr (dn : Option String) (cid : String) : String :=
  match dn with
  | some d => if d.isEmpty then pyCapitalize cid else d
  | none => pyCapitalize cid

/-- The fresh owner record built at identity.py lines 217-224. -/
def freshOwnerRecord (oc : String) (now : Nat) : IdentityRecord :=
  ⟨oc, true, pyCapitalize oc, [], now, now⟩

/-- Identity.py lines 227-230: append `chid` to the owner record `r` stored
at key `oc` if absent, bump `updated_at` and save; otherwise leave the
store untouched.  `r` is the record at key `oc` in `store` at every call
site (the source re-reads it from the dict). -/
def appendOwnerChannel (oc : String) (r : IdentityRecord)
    (store : IdentityStore) (chid : String) (now : Nat) :
    String × IdentityStore × Bool :=
  if chid ∈ r.channels then
    (oc, store, false)
  else
    let r' := { r with channels := r.channels ++ [chid], updated_at := now }
    (oc, ⟨store.version, setKey store.identities oc r'⟩, true)

/-- `resolve_canonical_id` (identity.py lines 159-235).  Returns the
canonical id, the persisted store after the call, and whether a save
happened. -/
def resolve_canonical_id (channel provider_user_id : String)
    (ownerNumbers : List String) (ownerNameToken : Option String)
    (now : Nat) (store : IdentityStore) :
    Except IdErr (String × IdentityStore × Bool) :=
  let chid := mkChannelId channel provider_user_id
  match lookupChannel store.identities chid with
  | some cid => .ok (cid, store, false)
  | none =>
    if provider_user_id ∈ ownerNumbers then
      match findOwnerPair store.identities with
      | some p => .ok (appendOwnerChannel p.1 p.2 store chid now)
      | none =>
        match (match ownerNameToken with
               | some t => sanitizeE t
               | none => .ok "owner") with
        | .error e => .error e
        | .ok oc =>
          let r := freshOwnerRecord oc now
          let store1 : IdentityStore :=
            ⟨store.version, setKey store.identities oc r⟩
          .ok (appendOwnerChannel oc r store1 chid now)
    else
      .ok ("stranger:" ++ chid, store, false)

/-- `add_channel` (identity.py lines 237-271).  Returns the persisted store
after the call and whether a save happened.  A freshly created record has
an empty channel list, so in the creation branch the channel check at line
268 always appends. -/
def add_channel (canonical_id channel provider_user_id : String)
    (display_name : Option String) (now : Nat) (store : IdentityStore) :
    Except IdErr (IdentityStore × Bool) :=
  match sanitizeE canonical_id with
  | .error e => .error e
  | .ok cid =>
    let chid := mkChannelId channel provider_user_id
    let r0 := match getKey store.identities cid with
      | some r => r
      | none =>
          ⟨cid, false, displayNameOr display_name cid, [], now, now⟩
    if chid ∈ r0.channels then
      .ok (store, false)
    else
      let r' :=
        { r0 with channels := r0.channels ++ [chid], updated_at := now }
      .ok (⟨store.version, setKey store.identities cid r'⟩, true)

/-- `remove_channel` (identity.py lines 273-291). -/
def remove_channel (canonical_id channel provider_user_id : String)
    (now : Nat) (store : IdentityStore) :
    Except IdErr (IdentityStore × Bool) :=
  match sanitizeE canonical_id with
  | .error e => .error e
  | .ok cid =>
    let chid := mkChannelId channel provider_user_id
    match getKey store.identities cid with
    | none => .ok (store, false)
    | some r =>
      if chid ∈ r.channels then
        let r' :=
          { r with channels := r.channels.erase chid, updated_at := now }
        .ok (⟨store.version, setKey store.identities cid r'⟩, true)
      else
        .ok (store, false)

/-- `list_identities` (identity.py lines 293-296). -/
def list_identities (store : IdentityStore) :
    List (String × IdentityRecord) :=
  store.identities

/-- `get_channels` (identity.py lines 298-306). -/
def get_channels (canonical_id : String) (store : IdentityStore) :
    Except IdErr (List String) :=
  match sanitizeE canonical_id with
  | .error e => .error e
  | .ok cid =>
    match getKey store.identities cid with
    | some r => .ok r.channels
    | none => .ok []

/-- `is_owner` (identity.py lines 308-316). -/
def is_owner (canonical_id : String) (store : IdentityStore) :
    Except IdErr Bool :=
  match sanitizeE canonical_id with
  | .error e => .error e
  | .ok cid =>
    match getKey store.identities cid with
    | some r => .ok r.is_owner
    | none => .ok false

/-- The possible states of the persisted file as `_load_identity_map`
distinguishes them: missing, unparseable (`json.JSONDecodeError` /
`IOError`), parsed but without an `"identities"` key, or well formed. -/
inductive FileState where
  | missing : FileState
  | corrupt : FileState
  | parsedNoIdentities : FileState
  | parsedGood (version : String)
      (identities : List (String × IdentityRecord)) : FileState

/-- `_load_identity_map` (identity.py lines 90-131). -/
def load_identity_map : FileState → IdentityStore
  | .missing => ⟨"1.0", []⟩
  | .corrupt => ⟨"1.0", []⟩
  | .parsedNoIdentities => ⟨"1.0", []⟩
  | .parsedGood v ids => ⟨v, ids⟩

/-- Two entries have disjoint channel lists. -/
def Disj (p q : String × IdentityRecord) : Prop :=
  ∀ c, c ∈ p.2.channels → c ∉ q.2.channels

instance : DecidableRel Disj := fun p q => by
  unfold Disj; infer_instance

/-- Global channel uniqueness: every channel string lives in the channel
list of at most one record of the store. -/
def ChanUniq (s : IdentityStore) : Prop :=
  s.identities.Pairwise Disj

instance (s : IdentityStore) : Decidable (ChanUniq s) := by
  unfold ChanUniq; infer_instance

/-- Number of records with `is_owner = true`. -/
def ownerCount (l : List (String × IdentityRecord)) : Nat :=
  l.countP (fun p => p.2.is_owner)

/-- The owner-uniqueness invariant: at most one record has
`is_owner = true`. -/
def AtMostOneOwner (s : IdentityStore) : Prop :=
  ownerCount s.identities ≤ 1

instance (s : IdentityStore) : Decidable (KeysNodup s) := by
  unfold KeysNodup; infer_instance

instance (s : IdentityStore) : Decidable (AtMostOneOwner s) := by
  unfold AtMostOneOwner ownerCount; infer_instance

/-- Stores reachable from the empty store by any sequence of (successful)
`resolve_canonical_id`, `add_channel` and `remove_channel` calls. -/
inductive Reach : IdentityStore → Prop where
  | empty : Reach emptyStore
  | resolveStep {s s' : IdentityStore} {ch pid c : String}
      {ons : List String} {nt : Option String} {now : Nat} {b : Bool} :
      Reach s → resolve_canonical_id ch pid ons nt now s = .ok (c, s', b) →
      Reach s'
  | addStep {s s' : IdentityStore} {cid ch pid : String}
      {dn : Option String} {now : Nat} {b : Bool} :
      Reach s → add_channel cid ch pid dn now s = .ok (s', b) → Reach s'
  | removeStep {s s' : IdentityStore} {cid ch pid : String} {now : Nat}
      {b : Bool} :
      Reach s → remove_channel cid ch pid now s = .ok (s', b) → Reach s'

/-- Stores reachable from the empty store using only `resolve_canonical_id`
and `remove_channel` (no `add_channel`). -/
inductive ReachRR : IdentityStore → Prop where
  | empty : ReachRR emptyStore
  | resolveStep {s s' : IdentityStore} {ch pid c : String}
      {ons : List String} {nt : Option String} {now : Nat} {b : Bool} :
      ReachRR s → resolve_canonical_id ch pid ons nt now s = .ok (c, s', b) →
      ReachRR s'
  | removeStep {s s' : IdentityStore} {cid ch pid : String} {now : Nat}
      {b : Bool} :
      ReachRR s → remove_channel cid ch pid now s = .ok (s', b) → ReachRR s'

/-! Association-list lemmas -/

theorem getKey_setKey_self (l : List (String × IdentityRecord)) (k : String)
    (v : IdentityRecord) : getKey (setKey l k v) k = some v := by
  induction l with
  | nil => simp [setKey, getKey, List.find?]
  | cons p rest ih =>
    by_cases h : p.1 = k
    · simp [setKey, h, getKey, List.find?]
    · simp only [setKey, if_neg h]
      simpa [getKey, List.find?, h] using ih

theorem mem_setKey {l : List (String × IdentityRecord)} {k : String}
    {v : IdentityRecord} {q : String × IdentityRecord}
    (h : q ∈ setKey l k v) : q ∈ l ∨ q = (k, v) := by
  induction l with
  | nil => simpa [setKey] using h
  | cons p rest ih =>
    by_cases hp : p.1 = k
    · simp only [setKey, if_pos hp, List.mem_cons] at h
      rcases h with h | h
      · exact .inr h
      · exact .inl (List.mem_cons_of_mem _ h)
    · simp only [setKey, if_neg hp, List.mem_cons] at h
      rcases h with h | h
      · exact .inl (h ▸ List.mem_cons_self _ _)
      · rcases ih h with h' | h'
        · exact .inl (List.mem_cons_of_mem _ h')
        · exact .inr h'

theorem getKey_eq_none_iff {l : List (String × IdentityRecord)}
    {k : String} : getKey l k = none ↔ k ∉ l.map Prod.fst := by
  unfold getKey
  cases hf : l.find? (fun p => p.1 = k) with
  | some p =>
    simp only [reduceCtorEq, false_iff, not_not]
    have hpk : p.1 = k := by simpa using List.find?_some hf
    exact hpk ▸ List.mem_map_of_mem _ (List.mem_of_find?_eq_some hf)
  | none =>
    simp only [true_iff]
    rw [List.find?_eq_none] at hf
    intro hk
    rcases List.mem_map.mp hk with ⟨p, hp, hpk⟩
    exact hf p hp (by simpa using hpk)

theorem getKey_eq_some_mem {l : List (String × IdentityRecord)} {k : String}
    {r : IdentityRecord} (h : getKey l k = some r) : (k, r) ∈ l := by
  unfold getKey at h
  cases hf : l.find? (fun p => p.1 = k) with
  | none => simp [hf] at h
  | some p =>
    rw [hf] at h
    have hpk : p.1 = k := by simpa using List.find?_some hf
    have hm := List.mem_of_find?_eq_some hf
    have : p = (k, r) := by
      cases p; simp_all
    exact this ▸ hm

theorem getKey_of_mem_nodup {l : List (String × IdentityRecord)}
    {k : String} {r : IdentityRecord} (hnd : (l.map Prod.fst).Nodup)
    (hm : (k, r) ∈ l) : getKey l k = some r := by
  induction l with
  | nil => cases hm
  | cons p rest ih =>
    rcases List.mem_cons.mp hm with h | h
    · simp [getKey, List.find?, ← h]
    · have hk : k ∈ rest.map Prod.fst :=
        List.mem_map_of_mem _ h
      have hp1 : p.1 ≠ k := by
        intro he
        exact (List.nodup_cons.mp hnd).1 (he ▸ hk)
      have := ih (List.nodup_cons.mp hnd).2 h
      simpa [getKey, List.find?, hp1] using this

theorem map_fst_setKey_of_some {l : List (String × IdentityRecord)}
    {k : String} {r : IdentityRecord} (v : IdentityRecord)
    (h : getKey l k = some r) :
    (setKey l k v).map Prod.fst = l.map Prod.fst := by
  induction l with
  | nil => simp [getKey, List.find?] at h
  | cons p rest ih =>
    by_cases hp : p.1 = k
    · simp [setKey, hp]
    · have h' : getKey rest k = some r := by
        simpa [getKey, List.find?, hp] using h
      simp [setKey, hp, ih h']

theorem setKey_of_none {l : List (String × IdentityRecord)} {k : String}
    (v : IdentityRecord) (h : getKey l k = none) :
    setKey l k v = l ++ [(k, v)] := by
  induction l with
  | nil => simp [setKey]
  | cons p rest ih =>
    have hp : p.1 ≠ k := by
      intro he
      rw [getKey_eq_none_iff] at h
      exact h (he ▸ List.mem_map_of_mem _ (List.mem_cons_self _ _))
    have h' : getKey rest k = none := by
      rw [getKey_eq_none_iff] at h ⊢
      intro hk
      exact h (by simp [hk])
    simp [setKey, hp, ih h']

theorem lookupChannel_eq_none {l : List (String × IdentityRecord)}
    {chid : String} (h : ∀ p ∈ l, chid ∉ p.2.channels) :
    lookupChannel l chid = none := by
  unfold lookupChannel
  rw [List.find?_eq_none.mpr]
  intro p hp
  simpa using h p hp

/-! Sanitizer lemmas -/

theorem toLower_of_allowed {c : Char} (h : allowedChar c = true) :
    Char.toLower c = c := by
  have hn : ¬(65 ≤ c.toNat ∧ c.toNat ≤ 90) := by
    simp only [allowedChar, Bool.or_eq_true, Bool.and_eq_true,
      decide_eq_true_eq] at h
    omega
  simp [Char.toLower, hn]

theorem pyStrip_subset (p : Char → Bool) (l : List Char) :
    ((l.dropWhile p).reverse.dropWhile p).reverse ⊆ l := by
  intro c hc
  rw [List.mem_reverse] at hc
  have h1 := (List.dropWhile_sublist (l := (l.dropWhile p).reverse)
    (p := p)).subset hc
  rw [List.mem_reverse] at h1
  exact (List.dropWhile_sublist (l := l) (p := p)).subset h1

theorem allowed_of_mem_sanitizeCore {x : String} {c : Char}
    (h : c ∈ sanitizeCore x) : allowedChar c = true := by
  unfold sanitizeCore pyStrip at h
  have h1 := List.take_subset _ _ h
  have h2 := pyStrip_subset stripChar _ h1
  exact List.of_mem_filter h2

theorem dropWhile_head?_false {p : Char → Bool} {l : List Char} {c : Char}
    (h : (l.dropWhile p).head? = some c) : p c = false := by
  induction l with
  | nil => simp at h
  | cons a t ih =>
    by_cases hp : p a
    · rw [List.dropWhile_cons_of_pos hp] at h
      exact ih h
    · rw [List.dropWhile_cons_of_neg hp] at h
      simp only [List.head?_cons, Option.some.injEq] at h
      simpa [← h] using hp

theorem dropWhile_eq_self_of_head {p : Char → Bool} {l : List Char}
    {c : Char} (hh : l.head? = some c) (hc : p c = false) :
    l.dropWhile p = l := by
  cases l with
  | nil => rfl
  | cons a t =>
    simp only [List.head?_cons, Option.some.injEq] at hh
    rw [List.dropWhile_cons_of_neg (by simp [hh, hc])]

theorem sanitizeCore_head?_not_strip {x : String} {c : Char}
    (h : (sanitizeCore x).head? = some c) : stripChar c = false := by
  unfold sanitizeCore pyStrip at h
  set L := (x.toList.map Char.toLower).filter allowedChar with hL
  set M := L.dropWhile stripChar with hM
  set u := M.reverse.dropWhile stripChar with hu
  -- head of the 64-char truncation is the head of the stripped list
  have h1 : u.reverse.head? = some c := by
    cases hur : u.reverse with
    | nil => rw [hur] at h; simp at h
    | cons a t =>
      rw [hur, show (64 : Nat) = 63 + 1 from rfl, List.take_succ_cons] at h
      simpa using h
  -- that head is the last element of `u`, which is a suffix of `M.reverse`
  rw [List.head?_reverse] at h1
  have hsuf : u <:+ M.reverse := List.dropWhile_suffix _
  rcases hsuf with ⟨t, ht⟩
  have hu_ne : u ≠ [] := by
    intro he
    rw [he] at h1; simp at h1
  have h2 : M.reverse.getLast? = some c := by
    rw [← ht, List.getLast?_append]
    rw [List.getLast?_eq_getLast u hu_ne] at h1 ⊢
    simp [h1]
  rw [List.getLast?_reverse] at h2
  exact dropWhile_head?_false h2

theorem sanitizeE_eq_ok {raw : String} (h : sanitizeCore raw ≠ []) :
    sanitizeE raw = .ok (String.mk (sanitizeCore raw)) := by
  unfold sanitizeE
  have hslash : ('/' : Char) ∉ sanitizeCore raw := by
    intro hm
    exact absurd (allowed_of_mem_sanitizeCore hm) (by decide)
  have hdot : (sanitizeCore raw).head?.getD ' ' ≠ '.' := by
    cases hc : sanitizeCore raw with
    | nil => exact absurd hc h
    | cons a t =>
      have ha : a ∈ sanitizeCore raw := by rw [hc]; exact List.mem_cons_self _ _
      have := allowed_of_mem_sanitizeCore ha
      simp only [List.head?_cons, Option.getD_some]
      intro he
      rw [he] at this
      exact absurd this (by decide)
  simp [h, hdot, hslash, List.isEmpty_iff]

theorem sanitizeE_ok_elim {raw y : String} (h : sanitizeE raw = .ok y) :
    y = String.mk (sanitizeCore raw) ∧ sanitizeCore raw ≠ [] := by
  unfold sanitizeE at h
  by_cases hc : sanitizeCore raw = []
  · simp [hc] at h
  · have h2 := sanitizeE_eq_ok hc
    unfold sanitizeE at h2
    rw [h] at h2
    exact ⟨by injection h2 with h3, hc⟩

theorem sanitizeE_eq_error {raw : String} (h : sanitizeCore raw = []) :
    sanitizeE raw = .error (.invalidIdentifier raw) := by
  unfold sanitizeE
  simp [h]

/-! Claim theorems -/

/-- C10: for every raw canonical id whose sanitization yields the empty
string, `get_channels`, `is_owner` and `remove_channel` fail with
`InvalidIdentifier` (Python `ValueError`) for every store — before
consulting the store — instead of returning the absent-record defaults
(`[]` / `false`) or completing as a no-op. -/
theorem C10_invalid_id_fails_fast :
    ∀ raw ch pid now (s : IdentityStore), sanitizeCore raw = [] →
      get_channels raw s = .error (.invalidIdentifier raw) ∧
      is_owner raw s = .error (.invalidIdentifier raw) ∧
      remove_channel raw ch pid now s = .error (.invalidIdentifier raw) := by
  intro raw ch pid now s h
  have he := sanitizeE_eq_error h
  exact ⟨by simp [get_channels, he], by simp [is_owner, he],
    by simp [remove_channel, he]⟩

theorem C10_witness :
    get_channels "..." emptyStore = .error (.invalidIdentifier "...") ∧
      is_owner "..." emptyStore = .error (.invalidIdentifier "...") ∧
      remove_channel "..." "discord" "eve#0000" 0 emptyStore =
        .error (.invalidIdentifier "...") :=
  C10_invalid_id_fails_fast "..." "discord" "eve#0000" 0 emptyStore
    (by decide)

/-- C7: loading a missing file yields the fresh empty store with version
"1.0"; loading an unparseable file yields the same empty store instead of
propagating an error; hence the read-only queries `list_identities`,
`get_channels` and `is_owner` never fail because of store corruption and
degrade to the empty results `{}` / `[]` / `false`. -/
theorem C7_load_tolerates_corruption :
    ∀ raw scid, sanitizeE raw = .ok scid →
      load_identity_map .missing = emptyStore ∧
      load_identity_map .corrupt = emptyStore ∧
      emptyStore.version = "1.0" ∧
      list_identities (load_identity_map .corrupt) = [] ∧
      get_channels raw (load_identity_map .corrupt) = .ok [] ∧
      is_owner raw (load_identity_map .corrupt) = .ok false := by
  intro raw scid h
  refine ⟨rfl, rfl, rfl, rfl, ?_, ?_⟩ <;>
    simp [get_channels, is_owner, load_identity_map, h, getKey, List.find?]

theorem C7_witness :
    load_identity_map .missing = emptyStore ∧
      load_identity_map .corrupt = emptyStore ∧
      emptyStore.version = "1.0" ∧
      list_identities (load_identity_map .corrupt) = [] ∧
      get_channels "alice" (load_identity_map .corrupt) = .ok [] ∧
      is_owner "alice" (load_identity_map .corrupt) = .ok false :=
  C7_load_tolerates_corruption "alice" "alice" (by decide)

/-- C5: when the channel string is in no record's channel list and the
provider user id is not an owner candidate, `resolve_canonical_id` returns
exactly `"stranger:<channel>:<provider_user_id>"`, leaves the store
unchanged and does not save. -/
theorem C5_stranger_pure :
    ∀ ch pid ons (nt : Option String) now (s : IdentityStore),
      (∀ p ∈ s.identities, mkChannelId ch pid ∉ p.2.channels) →
      pid ∉ ons →
      resolve_canonical_id ch pid ons nt now s =
        .ok ("stranger:" ++ mkChannelId ch pid, s, false) := by
  intro ch pid ons nt now s h1 h2
  have hl := lookupChannel_eq_none h1
  simp [resolve_canonical_id, hl, h2]

theorem C5_witness :
    resolve_canonical_id "discord" "unknown#1234" [] none 0 emptyStore =
      .ok ("stranger:discord:unknown#1234", emptyStore, false) := by
  have := C5_stranger_pure "discord" "unknown#1234" [] none 0 emptyStore
    (by intro p hp; simp [emptyStore] at hp) (by simp)
  simpa [mkChannelId] using this

/-- C6: when the channel string is in some record's channel list,
`resolve_canonical_id` returns the canonical id of a record containing it
and performs no mutation: the returned store is the input store (every
record and timestamp unchanged) and no save happens. -/
theorem C6_lookup_hit_no_mutation :
    ∀ ch pid ons (nt : Option String) now (s : IdentityStore) k r,
      (k, r) ∈ s.identities → mkChannelId ch pid ∈ r.channels →
      ∃ k' r', resolve_canonical_id ch pid ons nt now s = .ok (k', s, false) ∧
        (k', r') ∈ s.identities ∧ mkChannelId ch pid ∈ r'.channels := by
  intro ch pid ons nt now s k r hm hc
  cases hf : s.identities.find?
      (fun p => decide (mkChannelId ch pid ∈ p.2.channels)) with
  | none =>
    exfalso
    rw [List.find?_eq_none] at hf
    exact hf (k, r) hm (by simpa using hc)
  | some p =>
    refine ⟨p.1, p.2, ?_, ?_, ?_⟩
    · simp [resolve_canonical_id, lookupChannel, hf]
    · simpa using List.mem_of_find?_eq_some hf
    · simpa using List.find?_some hf

theorem C6_witness :
    ∃ k' r',
      resolve_canonical_id "telegram" "123456789" [] none 7
        ⟨"1.0", [("test",
          ⟨"test", true, "Test", ["telegram:123456789"], 5, 5⟩)]⟩ =
        .ok (k',
          ⟨"1.0", [("test",
            ⟨"test", true, "Test", ["telegram:123456789"], 5, 5⟩)]⟩,
          false) ∧
      (k', r') ∈ [("test",
        (⟨"test", true, "Test", ["telegram:123456789"], 5, 5⟩ :
          IdentityRecord))] ∧
      mkChannelId "telegram" "123456789" ∈ r'.channels :=
  C6_lookup_hit_no_mutation "telegram" "123456789" [] none 7
    ⟨"1.0", [("test", ⟨"test", true, "Test", ["telegram:123456789"], 5, 5⟩)]⟩
    "test" ⟨"test", true, "Test", ["telegram:123456789"], 5, 5⟩
    (by simp) (by decide)

/-- C8: `add_channel` is idempotent.  For a valid canonical id (and a store
whose record at that id, if any, holds the channel string at most once, as
the set semantics of `channels` guarantees), a successful call leaves the
record holding `"<channel>:<provider_user_id>"` exactly once, and a second
identical call — at any later clock — returns the store unchanged (no
`updated_at` bump) and does not save. -/
theorem C8_add_channel_idempotent :
    ∀ cid ch pid (dn : Option String) now now' (s s₁ : IdentityStore)
      (b : Bool) scid,
      sanitizeE cid = .ok scid →
      (∀ r, getKey s.identities scid = some r →
        r.channels.count (mkChannelId ch pid) ≤ 1) →
      add_channel cid ch pid dn now s = .ok (s₁, b) →
      add_channel cid ch pid dn now' s₁ = .ok (s₁, false) ∧
      ∃ r₁, getKey s₁.identities scid = some r₁ ∧
        r₁.channels.count (mkChannelId ch pid) = 1 := by
  intro cid ch pid dn now now' s s₁ b scid h1 h2 h3
  unfold add_channel at h3 ⊢
  rw [h1] at h3 ⊢
  simp only at h3 ⊢
  cases hk : getKey s.identities scid with
  | some r =>
    rw [hk] at h3
    by_cases hc : mkChannelId ch pid ∈ r.channels
    · rw [if_pos hc] at h3
      simp only [Except.ok.injEq, Prod.mk.injEq] at h3
      obtain ⟨hs, -⟩ := h3
      subst hs
      rw [hk, if_pos hc]
      refine ⟨rfl, r, rfl, ?_⟩
      have hge : 0 < r.channels.count (mkChannelId ch pid) :=
        List.count_pos_iff.mpr hc
      have hle := h2 r hk
      omega
    · rw [if_neg hc] at h3
      simp only [Except.ok.injEq, Prod.mk.injEq] at h3
      obtain ⟨hs, -⟩ := h3
      subst hs
      dsimp only
      rw [getKey_setKey_self]
      rw [if_pos (by simp : mkChannelId ch pid ∈
        r.channels ++ [mkChannelId ch pid])]
      refine ⟨rfl, _, rfl, ?_⟩
      simp [List.count_eq_zero_of_not_mem hc]
  | none =>
    rw [hk] at h3
    rw [if_neg (List.not_mem_nil _)] at h3
    simp only [Except.ok.injEq, Prod.mk.injEq] at h3
    obtain ⟨hs, -⟩ := h3
    subst hs
    dsimp only
    rw [getKey_setKey_self]
    rw [if_pos (by simp : mkChannelId ch pid ∈
      [] ++ [mkChannelId ch pid])]
    exact ⟨rfl, _, rfl, by simp⟩

theorem C8_witness :
    add_channel "alice" "discord" "alice#1234" none 2
        ⟨"1.0", [("alice",
          ⟨"alice", false, "Alice", ["discord:alice#1234"], 1, 1⟩)]⟩ =
      .ok (⟨"1.0", [("alice",
          ⟨"alice", false, "Alice", ["discord:alice#1234"], 1, 1⟩)]⟩,
        false) ∧
    ∃ r₁,
      getKey [("alice",
        (⟨"alice", false, "Alice", ["discord:alice#1234"], 1, 1⟩ :
          IdentityRecord))] "alice" = some r₁ ∧
      r₁.channels.count (mkChannelId "discord" "alice#1234") = 1 :=
  C8_add_channel_idempotent "alice" "discord" "alice#1234" none 1 2
    emptyStore
    ⟨"1.0", [("alice",
      ⟨"alice", false, "Alice", ["discord:alice#1234"], 1, 1⟩)]⟩
    true "alice" (by decide)
    (by intro r hr; simp [emptyStore, getKey, List.find?] at hr)
    (by decide)

/-! Lemmas about stripping trailing characters (for C2) -/

theorem revDrop_subset (p : Char → Bool) (l : List Char) :
    (l.reverse.dropWhile p).reverse ⊆ l := by
  intro c hc
  rw [List.mem_reverse] at hc
  have := (List.dropWhile_sublist (l := l.reverse) (p := p)).subset hc
  rwa [List.mem_reverse] at this

theorem head?_revDrop {p : Char → Bool} {l : List Char} {c : Char}
    (h : (l.reverse.dropWhile p).reverse.head? = some c) :
    l.head? = some c := by
  rw [List.head?_reverse] at h
  rcases List.dropWhile_suffix (l := l.reverse) p with ⟨t, ht⟩
  have hne : l.reverse.dropWhile p ≠ [] := by
    intro he
    rw [he] at h; simp at h
  have h2 : l.reverse.getLast? = some c := by
    rw [← ht, List.getLast?_append, h]
    rfl
  rwa [List.getLast?_reverse] at h2

theorem getLast?_revDrop {p : Char → Bool} {l : List Char} {c : Char}
    (h : (l.reverse.dropWhile p).reverse.getLast? = some c) : p c = false := by
  rw [List.getLast?_reverse] at h
  exact dropWhile_head?_false h

theorem revDrop_eq_self {p : Char → Bool} {l : List Char}
    (h : ∀ c, l.getLast? = some c → p c = false) :
    (l.reverse.dropWhile p).reverse = l := by
  cases hl : l.getLast? with
  | none =>
    rw [List.getLast?_eq_none_iff] at hl
    simp [hl]
  | some c =>
    have hh : l.reverse.head? = some c := by rw [List.head?_reverse]; exact hl
    rw [dropWhile_eq_self_of_head hh (h c hl), List.reverse_reverse]

theorem revDrop_ne_nil {p : Char → Bool} {l : List Char} {c : Char}
    (hh : l.head? = some c) (hc : p c = false) :
    (l.reverse.dropWhile p).reverse ≠ [] := by
  intro he
  rw [List.reverse_eq_nil_iff, List.dropWhile_eq_nil_iff] at he
  have hm : c ∈ l := by
    cases l with
    | nil => simp at hh
    | cons a t =>
      simp only [List.head?_cons, Option.some.injEq] at hh
      exact hh ▸ List.mem_cons_self _ _
  have := he c (List.mem_reverse.mpr hm)
  rw [this] at hc
  exact absurd hc (by simp)

/-- On a list of allowed characters whose head is not `-`/`_` and whose
length is at most 64, the sanitizer core only strips trailing `-`/`_`. -/
theorem sanitizeCore_of_clean {l : List Char}
    (hall : ∀ c ∈ l, allowedChar c = true)
    (hhead : ∀ c, l.head? = some c → stripChar c = false)
    (hlen : l.length ≤ 64) :
    sanitizeCore (String.mk l) = (l.reverse.dropWhile stripChar).reverse := by
  have htl : (String.mk l).toList = l := rfl
  unfold sanitizeCore pyStrip
  rw [htl]
  have hmap : l.map Char.toLower = l :=
    (List.map_congr_left (g := id)
      (fun c hc => toLower_of_allowed (hall c hc))).trans (List.map_id l)
  rw [hmap, List.filter_eq_self.mpr hall]
  have hdw : l.dropWhile stripChar = l := by
    cases hl : l.head? with
    | none =>
      rw [List.head?_eq_none_iff] at hl
      simp [hl]
    | some c => exact dropWhile_eq_self_of_head hl (hhead c hl)
  rw [hdw]
  apply List.take_of_length_le
  calc (l.reverse.dropWhile stripChar).reverse.length
      ≤ l.reverse.length := by
        rw [List.length_reverse]
        exact (List.dropWhile_sublist _).length_le
    _ = l.length := List.length_reverse _
    _ ≤ 64 := hlen

/-- C2 (counterexample): sanitize is not idempotent on every input it
accepts.  On the 65-character input `"a"*63 ++ "-b"` the 64-character
truncation — applied after stripping — leaves a trailing `'-'`, which a
second application of sanitize then strips, giving a different string. -/
theorem C2_counterexample :
    sanitizeE (String.mk (List.replicate 63 'a' ++ ['-', 'b'])) =
      .ok (String.mk (List.replicate 63 'a' ++ ['-'])) ∧
    sanitizeE (String.mk (List.replicate 63 'a' ++ ['-'])) =
      .ok (String.mk (List.replicate 63 'a')) ∧
    String.mk (List.replicate 63 'a' ++ ['-']) ≠
      String.mk (List.replicate 63 'a') := by
  refine ⟨by decide, by decide, by decide⟩

/-- C2 (amended): for every raw string accepted by sanitize, a second
application also succeeds and returns a fixpoint of sanitize; it returns
`sanitize(x)` itself — i.e. sanitize is idempotent at `x` — whenever
`sanitize(x)` does not end in `'-'`/`'_'` (the only exception, produced
when the 64-character truncation re-exposes a trailing `'-'`/`'_'` that
the earlier strip could not see; the second application strips it). -/
theorem C2_amended_sanitize_almost_idempotent :
    ∀ x y, sanitizeE x = .ok y →
      ∃ z, sanitizeE y = .ok z ∧ sanitizeE z = .ok z ∧
        ((∀ c, y.toList.getLast? = some c → stripChar c = false) →
          z = y) := by
  intro x y hxy
  obtain ⟨hy, hne⟩ := sanitizeE_ok_elim hxy
  subst hy
  set l := sanitizeCore x with hl
  have htl : (String.mk l).toList = l := rfl
  have hall : ∀ c ∈ l, allowedChar c = true :=
    fun c hc => allowed_of_mem_sanitizeCore hc
  have hhead : ∀ c, l.head? = some c → stripChar c = false :=
    fun c hc => sanitizeCore_head?_not_strip hc
  have hlen : l.length ≤ 64 := by
    rw [hl]; unfold sanitizeCore; exact List.length_take_le _ _
  -- the second application only strips trailing '-'/'_'
  have hcore : sanitizeCore (String.mk l) =
      (l.reverse.dropWhile stripChar).reverse :=
    sanitizeCore_of_clean hall hhead hlen
  set zl := (l.reverse.dropWhile stripChar).reverse with hzl
  -- the head survives the trailing strip, so the result is nonempty
  obtain ⟨c0, hc0⟩ : ∃ c0, l.head? = some c0 := by
    cases hh : l.head? with
    | none => rw [List.head?_eq_none_iff] at hh; exact absurd hh hne
    | some c => exact ⟨c, rfl⟩
  have hzne : zl ≠ [] := revDrop_ne_nil hc0 (hhead c0 hc0)
  have hok : sanitizeE (String.mk l) = .ok (String.mk zl) := by
    have := @sanitizeE_eq_ok (String.mk l) (by rw [hcore]; exact hzne)
    rwa [hcore] at this
  -- the result of the second application is a fixpoint of sanitize
  have hzall : ∀ c ∈ zl, allowedChar c = true :=
    fun c hc => hall c (revDrop_subset _ _ hc)
  have hzhead : ∀ c, zl.head? = some c → stripChar c = false :=
    fun c hc => hhead c (head?_revDrop hc)
  have hzlen : zl.length ≤ 64 := by
    calc zl.length ≤ l.reverse.length := by
          rw [hzl, List.length_reverse]
          exact (List.dropWhile_sublist _).length_le
      _ = l.length := List.length_reverse _
      _ ≤ 64 := hlen
  have hzcore : sanitizeCore (String.mk zl) = zl := by
    rw [sanitizeCore_of_clean hzall hzhead hzlen]
    exact revDrop_eq_self (fun c hc => getLast?_revDrop (hzl ▸ hc))
  have hzok : sanitizeE (String.mk zl) = .ok (String.mk zl) := by
    have := @sanitizeE_eq_ok (String.mk zl) (by rw [hzcore]; exact hzne)
    rwa [hzcore] at this
  refine ⟨String.mk zl, hok, hzok, fun hlast => ?_⟩
  have : zl = l := revDrop_eq_self (fun c hc => hlast c (htl ▸ hc))
  rw [this]

theorem C2_witness :
    ∃ z, sanitizeE "alice" = .ok z ∧ sanitizeE z = .ok z ∧
      ((∀ c, ("alice" : String).toList.getLast? = some c →
        stripChar c = false) → z = "alice") :=
  C2_amended_sanitize_almost_idempotent "Alice" "alice" (by decide)

/-- C3 (counterexample): when no owner record exists, the provider user id
is an owner candidate and the profile supplies a name whose sanitization
fails, `resolve_canonical_id` raises `InvalidIdentifier` instead of
falling back to the literal canonical id `"owner"`. -/
theorem C3_counterexample :
    resolve_canonical_id "telegram" "123" ["123"] (some "...") 0
      emptyStore = .error (.invalidIdentifier "...") := by
  decide

/-- C3 (amended): in the owner auto-registration path (channel string
unmapped, provider user id an owner candidate, no `is_owner` record): when
no preferred name is available the owner canonical id falls back to the
literal `"owner"` and a new record with `is_owner = true` is created and
saved; when a preferred name is available and sanitizes successfully, the
sanitized name becomes the owner canonical id of the new `is_owner = true`
record; but when the preferred name's sanitization fails, resolve raises
`InvalidIdentifier` rather than falling back to `"owner"`. -/
theorem C3_amended_owner_synthesis :
    ∀ ch pid ons (nt : Option String) now (s : IdentityStore),
      (∀ p ∈ s.identities, mkChannelId ch pid ∉ p.2.channels) →
      pid ∈ ons →
      findOwnerPair s.identities = none →
      ((nt = none →
        ∃ s', resolve_canonical_id ch pid ons nt now s =
            .ok ("owner", s', true) ∧
          ∃ r, getKey s'.identities "owner" = some r ∧ r.is_owner = true) ∧
       (∀ t oc, nt = some t → sanitizeE t = .ok oc →
        ∃ s', resolve_canonical_id ch pid ons nt now s =
            .ok (oc, s', true) ∧
          ∃ r, getKey s'.identities oc = some r ∧ r.is_owner = true) ∧
       (∀ t e, nt = some t → sanitizeE t = .error e →
        resolve_canonical_id ch pid ons nt now s = .error e)) := by
  intro ch pid ons nt now s h1 h2 h3
  have hl := lookupChannel_eq_none h1
  refine ⟨?_, ?_, ?_⟩
  · intro hnt
    subst hnt
    simp only [resolve_canonical_id, hl, if_pos h2, h3, appendOwnerChannel,
      freshOwnerRecord, List.not_mem_nil, if_false]
    exact ⟨_, rfl, _, getKey_setKey_self _ _ _, rfl⟩
  · intro t oc hnt hok
    subst hnt
    simp only [resolve_canonical_id, hl, if_pos h2, h3, hok,
      appendOwnerChannel, freshOwnerRecord, List.not_mem_nil, if_false]
    exact ⟨_, rfl, _, getKey_setKey_self _ _ _, rfl⟩
  · intro t e hnt herr
    subst hnt
    simp only [resolve_canonical_id, hl, if_pos h2, h3, herr]

theorem C3_witness :
    (none = (none : Option String) →
      ∃ s', resolve_canonical_id "telegram" "123" ["123"] none 0
          emptyStore = .ok ("owner", s', true) ∧
        ∃ r, getKey s'.identities "owner" = some r ∧ r.is_owner = true) ∧
    (∀ t oc, (none : Option String) = some t → sanitizeE t = .ok oc →
      ∃ s', resolve_canonical_id "telegram" "123" ["123"] none 0
          emptyStore = .ok (oc, s', true) ∧
        ∃ r, getKey s'.identities oc = some r ∧ r.is_owner = true) ∧
    (∀ t e, (none : Option String) = some t → sanitizeE t = .error e →
      resolve_canonical_id "telegram" "123" ["123"] none 0 emptyStore =
        .error e) :=
  C3_amended_owner_synthesis "telegram" "123" ["123"] none 0 emptyStore
    (by intro p hp; simp [emptyStore] at hp) (by decide) (by decide)

/-- C9: when owner auto-registration synthesizes a canonical id that
already names an existing (necessarily non-owner) record, that record is
replaced wholesale by the brand-new owner record: the stored record
afterwards has `is_owner = true`, the capitalized id as display name, only
the newly resolved channel string in `channels`, and `created_at` equal to
the current clock — the previous record's channels, display name and
creation time are discarded, not merged.  The set of keys is unchanged
(replacement, not insertion). -/
theorem C9_owner_creation_replaces :
    ∀ ch pid ons t oc now (s : IdentityStore) rOld,
      (∀ p ∈ s.identities, mkChannelId ch pid ∉ p.2.channels) →
      pid ∈ ons →
      findOwnerPair s.identities = none →
      sanitizeE t = .ok oc →
      getKey s.identities oc = some rOld →
      ∃ s', resolve_canonical_id ch pid ons (some t) now s =
          .ok (oc, s', true) ∧
        getKey s'.identities oc =
          some ⟨oc, true, pyCapitalize oc, [mkChannelId ch pid], now, now⟩ ∧
        s'.identities.map Prod.fst = s.identities.map Prod.fst := by
  intro ch pid ons t oc now s rOld h1 h2 h3 h4 h5
  have hl := lookupChannel_eq_none h1
  simp only [resolve_canonical_id, hl, if_pos h2, h3, h4,
    appendOwnerChannel, freshOwnerRecord, List.not_mem_nil, if_false]
  refine ⟨_, rfl, getKey_setKey_self _ _ _, ?_⟩
  rw [map_fst_setKey_of_some _ (getKey_setKey_self _ _ _),
    map_fst_setKey_of_some _ h5]

theorem C9_witness :
    ∃ s', resolve_canonical_id "telegram" "99" ["99"] (some "Bob") 3
        ⟨"1.0", [("bob", ⟨"bob", false, "Bobby", ["web:7"], 1, 2⟩)]⟩ =
        .ok ("bob", s', true) ∧
      getKey s'.identities "bob" =
        some ⟨"bob", true, pyCapitalize "bob",
          [mkChannelId "telegram" "99"], 3, 3⟩ ∧
      s'.identities.map Prod.fst =
        [("bob",
          (⟨"bob", false, "Bobby", ["web:7"], 1, 2⟩ :
            IdentityRecord))].map Prod.fst :=
  C9_owner_creation_replaces "telegram" "99" ["99"] "Bob" "bob" 3
    ⟨"1.0", [("bob", ⟨"bob", false, "Bobby", ["web:7"], 1, 2⟩)]⟩
    ⟨"bob", false, "Bobby", ["web:7"], 1, 2⟩
    (by decide) (by decide) (by decide) (by decide) (by decide)

/-! Owner-count lemmas -/

theorem ownerCount_setKey_of_some {l : List (String × IdentityRecord)}
    {k : String} {r : IdentityRecord} {v : IdentityRecord}
    (hk : getKey l k = some r) (hio : v.is_owner = r.is_owner) :
    ownerCount (setKey l k v) = ownerCount l := by
  induction l with
  | nil => simp [getKey, List.find?] at hk
  | cons p rest ih =>
    by_cases hp : p.1 = k
    · have hr : r = p.2 := by
        simp [getKey, List.find?, hp] at hk
        exact hk.symm
      simp only [setKey, if_pos hp, ownerCount, List.countP_cons]
      rw [hio, hr]
    · have hk' : getKey rest k = some r := by
        simpa [getKey, List.find?, hp] using hk
      simp only [setKey, if_neg hp, ownerCount, List.countP_cons]
      have := ih hk'
      simp only [ownerCount] at this
      omega

/-- Replacing a record by a copy with different channels/`updated_at`
does not change the number of owner records. -/
theorem ownerCount_setKey_update {l : List (String × IdentityRecord)}
    {k : String} {r : IdentityRecord} (chans : List String) (ts : Nat)
    (hk : getKey l k = some r) :
    ownerCount (setKey l k ⟨r.canonical_id, r.is_owner, r.display_name,
      chans, r.created_at, ts⟩) = ownerCount l :=
  ownerCount_setKey_of_some hk rfl

theorem ownerCount_setKey_le (l : List (String × IdentityRecord))
    (k : String) (v : IdentityRecord) :
    ownerCount (setKey l k v) ≤
      ownerCount l + (if v.is_owner then 1 else 0) := by
  induction l with
  | nil => simp [setKey, ownerCount, List.countP_cons]
  | cons p rest ih =>
    by_cases hp : p.1 = k
    · simp only [setKey, if_pos hp, ownerCount, List.countP_cons]
      omega
    · simp only [setKey, if_neg hp, ownerCount, List.countP_cons]
      simp only [ownerCount] at ih
      omega

theorem ownerCount_eq_zero_of_no_owner {l : List (String × IdentityRecord)}
    (h : findOwnerPair l = none) : ownerCount l = 0 := by
  unfold findOwnerPair at h
  rw [List.find?_eq_none] at h
  unfold ownerCount
  rw [List.countP_eq_zero]
  exact h

/-! Case analysis of `resolve_canonical_id` -/

/-- Full characterization of the successful outcomes of
`resolve_canonical_id`: lookup hit, stranger, channel append on the
existing owner record, or owner-record creation. -/
theorem resolve_ok_cases {ch pid : String} {ons : List String}
    {nt : Option String} {now : Nat} {s s' : IdentityStore} {c : String}
    {b : Bool}
    (h : resolve_canonical_id ch pid ons nt now s = .ok (c, s', b)) :
    (s' = s ∧ b = false ∧
      lookupChannel s.identities (mkChannelId ch pid) = some c) ∨
    (s' = s ∧ b = false ∧ c = "stranger:" ++ mkChannelId ch pid ∧
      pid ∉ ons) ∨
    (∃ r, lookupChannel s.identities (mkChannelId ch pid) = none ∧
      pid ∈ ons ∧ findOwnerPair s.identities = some (c, r) ∧
      ((mkChannelId ch pid ∈ r.channels ∧ s' = s ∧ b = false) ∨
       (mkChannelId ch pid ∉ r.channels ∧ b = true ∧
        s' = ⟨s.version, setKey s.identities c
          ⟨r.canonical_id, r.is_owner, r.display_name,
            r.channels ++ [mkChannelId ch pid], r.created_at, now⟩⟩))) ∨
    (lookupChannel s.identities (mkChannelId ch pid) = none ∧ pid ∈ ons ∧
      findOwnerPair s.identities = none ∧
      ((nt = none ∧ c = "owner") ∨
        (∃ t, nt = some t ∧ sanitizeE t = .ok c)) ∧
      b = true ∧
      s' = ⟨s.version,
        setKey (setKey s.identities c (freshOwnerRecord c now)) c
          ⟨c, true, pyCapitalize c, [mkChannelId ch pid], now, now⟩⟩) := by
  unfold resolve_canonical_id at h
  simp only at h
  cases hl : lookupChannel s.identities (mkChannelId ch pid) with
  | some cid =>
    rw [hl] at h
    simp only [Except.ok.injEq, Prod.mk.injEq] at h
    obtain ⟨hc, hs, hb⟩ := h
    subst hc; subst hs; subst hb
    exact .inl ⟨rfl, rfl, rfl⟩
  | none =>
    rw [hl] at h
    by_cases hons : pid ∈ ons
    · rw [if_pos hons] at h
      cases hf : findOwnerPair s.identities with
      | some p =>
        rw [hf] at h
        unfold appendOwnerChannel at h
        simp only at h
        by_cases hmem : mkChannelId ch pid ∈ p.2.channels
        · rw [if_pos hmem] at h
          simp only [Except.ok.injEq, Prod.mk.injEq] at h
          obtain ⟨hc, hs, hb⟩ := h
          subst hc; subst hs; subst hb
          exact .inr (.inr (.inl ⟨p.2, rfl, hons, rfl, .inl
            ⟨hmem, rfl, rfl⟩⟩))
        · rw [if_neg hmem] at h
          simp only [Except.ok.injEq, Prod.mk.injEq] at h
          obtain ⟨hc, hs, hb⟩ := h
          subst hc; subst hs; subst hb
          exact .inr (.inr (.inl ⟨p.2, rfl, hons, rfl, .inr
            ⟨hmem, rfl, rfl⟩⟩))
      | none =>
        rw [hf] at h
        cases nt with
        | none =>
          simp only at h
          unfold appendOwnerChannel at h
          simp only [freshOwnerRecord, List.not_mem_nil, if_false] at h
          simp only [Except.ok.injEq, Prod.mk.injEq] at h
          obtain ⟨hc, hs, hb⟩ := h
          subst hc; subst hs; subst hb
          exact .inr (.inr (.inr ⟨rfl, hons, rfl, .inl ⟨rfl, rfl⟩,
            rfl, rfl⟩))
        | some t =>
          simp only at h
          cases hst : sanitizeE t with
          | error e =>
            rw [hst] at h
            exact absurd h (by simp)
          | ok oc =>
            rw [hst] at h
            unfold appendOwnerChannel at h
            simp only [freshOwnerRecord, List.not_mem_nil, if_false] at h
            simp only [Except.ok.injEq, Prod.mk.injEq] at h
            obtain ⟨hc, hs, hb⟩ := h
            subst hc; subst hs; subst hb
            exact .inr (.inr (.inr ⟨rfl, hons, rfl,
              .inr ⟨t, rfl, hst⟩, rfl, rfl⟩))
    · rw [if_neg hons] at h
      simp only [Except.ok.injEq, Prod.mk.injEq] at h
      obtain ⟨hc, hs, hb⟩ := h
      subst hs; subst hb
      exact .inr (.inl ⟨rfl, rfl, hc.symm, hons⟩)

/-- Full characterization of the successful outcomes of `add_channel`:
no-op on an already present channel, append to an existing record, or
record creation. -/
theorem add_channel_ok_cases {cid ch pid : String} {dn : Option String}
    {now : Nat} {s s' : IdentityStore} {b : Bool}
    (h : add_channel cid ch pid dn now s = .ok (s', b)) :
    ∃ scid, sanitizeE cid = .ok scid ∧
      ((∃ r, getKey s.identities scid = some r ∧
          mkChannelId ch pid ∈ r.channels ∧ s' = s ∧ b = false) ∨
       (∃ r, getKey s.identities scid = some r ∧
          mkChannelId ch pid ∉ r.channels ∧ b = true ∧
          s' = ⟨s.version, setKey s.identities scid
            ⟨r.canonical_id, r.is_owner, r.display_name,
              r.channels ++ [mkChannelId ch pid], r.created_at, now⟩⟩) ∨
       (getKey s.identities scid = none ∧ b = true ∧
          s' = ⟨s.version, setKey s.identities scid
            ⟨scid, false, displayNameOr dn scid,
              [mkChannelId ch pid], now, now⟩⟩)) := by
  unfold add_channel at h
  cases hs : sanitizeE cid with
  | error e => rw [hs] at h; exact absurd h (by simp)
  | ok scid =>
    rw [hs] at h
    simp only at h
    refine ⟨scid, rfl, ?_⟩
    cases hk : getKey s.identities scid with
    | some r =>
      rw [hk] at h
      by_cases hmem : mkChannelId ch pid ∈ r.channels
      · rw [if_pos hmem] at h
        simp only [Except.ok.injEq, Prod.mk.injEq] at h
        obtain ⟨hs', hb⟩ := h
        subst hs'; subst hb
        exact .inl ⟨r, rfl, hmem, rfl, rfl⟩
      · rw [if_neg hmem] at h
        simp only [Except.ok.injEq, Prod.mk.injEq] at h
        obtain ⟨hs', hb⟩ := h
        subst hs'; subst hb
        exact .inr (.inl ⟨r, rfl, hmem, rfl, rfl⟩)
    | none =>
      rw [hk] at h
      rw [if_neg (List.not_mem_nil _)] at h
      simp only [Except.ok.injEq, Prod.mk.injEq] at h
      obtain ⟨hs', hb⟩ := h
      subst hs'; subst hb
      exact .inr (.inr ⟨rfl, rfl, rfl⟩)

/-- Full characterization of the successful outcomes of `remove_channel`:
no-op when the record or the channel entry is missing, or erasure of the
channel from the record. -/
theorem remove_channel_ok_cases {cid ch pid : String} {now : Nat}
    {s s' : IdentityStore} {b : Bool}
    (h : remove_channel cid ch pid now s = .ok (s', b)) :
    ∃ scid, sanitizeE cid = .ok scid ∧
      ((s' = s ∧ b = false) ∨
       (∃ r, getKey s.identities scid = some r ∧
          mkChannelId ch pid ∈ r.channels ∧ b = true ∧
          s' = ⟨s.version, setKey s.identities scid
            ⟨r.canonical_id, r.is_owner, r.display_name,
              r.channels.erase (mkChannelId ch pid),
              r.created_at, now⟩⟩)) := by
  unfold remove_channel at h
  cases hs : sanitizeE cid with
  | error e => rw [hs] at h; exact absurd h (by simp)
  | ok scid =>
    rw [hs] at h
    simp only at h
    refine ⟨scid, rfl, ?_⟩
    cases hk : getKey s.identities scid with
    | some r =>
      rw [hk] at h
      simp only at h
      by_cases hmem : mkChannelId ch pid ∈ r.channels
      · rw [if_pos hmem] at h
        simp only [Except.ok.injEq, Prod.mk.injEq] at h
        obtain ⟨hs', hb⟩ := h
        subst hs'; subst hb
        exact .inr ⟨r, rfl, hmem, rfl, rfl⟩
      · rw [if_neg hmem] at h
        simp only [Except.ok.injEq, Prod.mk.injEq] at h
        obtain ⟨hs', hb⟩ := h
        subst hs'; subst hb
        exact .inl ⟨rfl, rfl⟩
    | none =>
      rw [hk] at h
      simp only [Except.ok.injEq, Prod.mk.injEq] at h
      obtain ⟨hs', hb⟩ := h
      subst hs'; subst hb
      exact .inl ⟨rfl, rfl⟩

/-- C4: starting from a store (with the dict's unique keys) holding at most
one `is_owner = true` record, every public operation leaves at most one
such record; in the owner path `resolve_canonical_id` reuses the existing
owner record's canonical id instead of creating a second owner, and every
record `add_channel` creates (a key absent before the call) has
`is_owner = false`. -/
theorem C4_owner_uniqueness_preserved :
    ∀ s : IdentityStore, KeysNodup s → AtMostOneOwner s →
      ((∀ ch pid ons (nt : Option String) now c s' b,
          resolve_canonical_id ch pid ons nt now s = .ok (c, s', b) →
          AtMostOneOwner s') ∧
       (∀ cid ch pid (dn : Option String) now s' b,
          add_channel cid ch pid dn now s = .ok (s', b) →
          AtMostOneOwner s' ∧
          ∀ k r, (k, r) ∈ s'.identities → getKey s.identities k = none →
            r.is_owner = false) ∧
       (∀ cid ch pid now s' b,
          remove_channel cid ch pid now s = .ok (s', b) →
          AtMostOneOwner s') ∧
       (∀ ch pid ons (nt : Option String) now c s' b k r,
          lookupChannel s.identities (mkChannelId ch pid) = none →
          pid ∈ ons → findOwnerPair s.identities = some (k, r) →
          resolve_canonical_id ch pid ons nt now s = .ok (c, s', b) →
          c = k)) := by
  intro s hnd hone
  refine ⟨?_, ?_, ?_, ?_⟩
  · intro ch pid ons nt now c s' b h
    rcases resolve_ok_cases h with
      ⟨hs', -, -⟩ | ⟨hs', -, -, -⟩ |
      ⟨r, hl, hons, hf, ⟨-, hs', -⟩ | ⟨-, -, hs'⟩⟩ |
      ⟨hl, hons, hf, -, -, hs'⟩
    · exact hs' ▸ hone
    · exact hs' ▸ hone
    · exact hs' ▸ hone
    · have hmem : (c, r) ∈ s.identities :=
        List.mem_of_find?_eq_some hf
      have hk : getKey s.identities c = some r :=
        getKey_of_mem_nodup hnd hmem
      subst hs'
      unfold AtMostOneOwner at hone ⊢
      dsimp only
      rw [ownerCount_setKey_update _ _ hk]
      exact hone
    · subst hs'
      unfold AtMostOneOwner at hone ⊢
      dsimp only
      have hstep : ownerCount (setKey (setKey s.identities c
            (freshOwnerRecord c now)) c
            ⟨c, true, pyCapitalize c, [mkChannelId ch pid], now, now⟩) =
          ownerCount (setKey s.identities c (freshOwnerRecord c now)) :=
        ownerCount_setKey_of_some (getKey_setKey_self _ _ _) rfl
      rw [hstep]
      have h0 := ownerCount_eq_zero_of_no_owner hf
      have hle := ownerCount_setKey_le s.identities c (freshOwnerRecord c now)
      rw [h0] at hle
      simpa [freshOwnerRecord] using hle
  · intro cid ch pid dn now s' b h
    rcases add_channel_ok_cases h with
      ⟨scid, hs, ⟨r, hk, hmem, hs', -⟩ | ⟨r, hk, hmem, -, hs'⟩ |
        ⟨hk, -, hs'⟩⟩
    · subst hs'
      refine ⟨hone, ?_⟩
      intro k2 r2 hm2 hk2
      rw [getKey_eq_none_iff] at hk2
      exact absurd (List.mem_map_of_mem Prod.fst hm2) hk2
    · subst hs'
      constructor
      · unfold AtMostOneOwner at hone ⊢
        dsimp only
        rw [ownerCount_setKey_update _ _ hk]
        exact hone
      · intro k2 r2 hm2 hk2
        rcases mem_setKey hm2 with hm2' | hm2'
        · rw [getKey_eq_none_iff] at hk2
          exact absurd (List.mem_map_of_mem Prod.fst hm2') hk2
        · have hkk : k2 = scid := congrArg Prod.fst hm2'
          rw [hkk, hk] at hk2
          cases hk2
    · subst hs'
      constructor
      · unfold AtMostOneOwner at hone ⊢
        dsimp only
        have hle := ownerCount_setKey_le s.identities scid
          ⟨scid, false, displayNameOr dn scid,
            [mkChannelId ch pid], now, now⟩
        simp only [if_neg (by simp : ¬((false : Bool) = true))] at hle
        omega
      · intro k2 r2 hm2 hk2
        rcases mem_setKey hm2 with hm2' | hm2'
        · rw [getKey_eq_none_iff] at hk2
          exact absurd (List.mem_map_of_mem Prod.fst hm2') hk2
        · have : r2 = ⟨scid, false, displayNameOr dn scid,
              [mkChannelId ch pid], now, now⟩ :=
            congrArg Prod.snd hm2'
          rw [this]
  · intro cid ch pid now s' b h
    rcases remove_channel_ok_cases h with
      ⟨scid, hs, ⟨hs', -⟩ | ⟨r, hk, hmem, -, hs'⟩⟩
    · exact hs' ▸ hone
    · subst hs'
      unfold AtMostOneOwner at hone ⊢
      dsimp only
      rw [ownerCount_setKey_update _ _ hk]
      exact hone
  · intro ch pid ons nt now c s' b k r hl0 hons0 hf0 h
    rcases resolve_ok_cases h with
      ⟨-, -, hl⟩ | ⟨-, -, -, hons⟩ |
      ⟨r', hl, hons, hf, -⟩ | ⟨hl, hons, hf, -, -, -⟩
    · rw [hl0] at hl; cases hl
    · exact absurd hons0 hons
    · rw [hf0] at hf
      have := congrArg (fun o => (Option.map Prod.fst o).getD "") hf
      simpa using this.symm
    · rw [hf0] at hf; cases hf

theorem C4_witness :
    AtMostOneOwner ⟨"1.0", [("test",
      ⟨"test", true, "Test", ["telegram:1", "whatsapp:2"], 0, 3⟩)]⟩ :=
  (C4_owner_uniqueness_preserved
      ⟨"1.0", [("test", ⟨"test", true, "Test", ["telegram:1"], 0, 0⟩)]⟩
      (by decide) (by decide)).1
    "whatsapp" "2" ["2"] none 3 "test"
    ⟨"1.0", [("test",
      ⟨"test", true, "Test", ["telegram:1", "whatsapp:2"], 0, 3⟩)]⟩
    true (by decide)

/-! Channel-uniqueness lemmas -/

theorem lookupChannel_none_elim {l : List (String × IdentityRecord)}
    {chid : String} (h : lookupChannel l chid = none) :
    ∀ p ∈ l, chid ∉ p.2.channels := by
  unfold lookupChannel at h
  cases hf : l.find? (fun p => decide (chid ∈ p.2.channels)) with
  | some p => rw [hf] at h; cases h
  | none =>
    rw [List.find?_eq_none] at hf
    intro p hp
    simpa using hf p hp

/-- Replacing the record at an existing key preserves pairwise channel
disjointness, provided every channel of the new record either came from
the old record or is globally fresh. -/
theorem chanUniq_setKey {l : List (String × IdentityRecord)} {k : String}
    {v r : IdentityRecord} (hP : l.Pairwise Disj)
    (hk : getKey l k = some r)
    (hv : ∀ c ∈ v.channels, c ∈ r.channels ∨ ∀ q ∈ l, c ∉ q.2.channels) :
    (setKey l k v).Pairwise Disj := by
  induction l with
  | nil => simp [getKey, List.find?] at hk
  | cons p rest ih =>
    obtain ⟨hpd, hPrest⟩ := List.pairwise_cons.mp hP
    by_cases hp : p.1 = k
    · have hr : r = p.2 := by
        simp [getKey, List.find?, hp] at hk
        exact hk.symm
      subst hr
      simp only [setKey, if_pos hp]
      rw [List.pairwise_cons]
      refine ⟨?_, hPrest⟩
      intro q hq c hcv
      rcases hv c hcv with hcr | hfresh
      · exact hpd q hq c hcr
      · exact hfresh q (List.mem_cons_of_mem _ hq)
    · have hk' : getKey rest k = some r := by
        simpa [getKey, List.find?, hp] using hk
      simp only [setKey, if_neg hp]
      rw [List.pairwise_cons]
      constructor
      · intro q hq
        rcases mem_setKey hq with hq' | hq'
        · exact hpd q hq'
        · subst hq'
          intro c hcp hcv
          rcases hv c hcv with hcr | hfresh
          · exact (hpd (k, r) (getKey_eq_some_mem hk') c hcp) hcr
          · exact hfresh p (List.mem_cons_self _ _) hcp
      · refine ih hPrest hk' ?_
        intro c hcv
        rcases hv c hcv with hcr | hfresh
        · exact .inl hcr
        · exact .inr (fun q hq => hfresh q (List.mem_cons_of_mem _ hq))

/-- Inserting a record under a fresh key preserves pairwise channel
disjointness, provided all its channels are globally fresh. -/
theorem chanUniq_setKey_none {l : List (String × IdentityRecord)}
    {k : String} {v : IdentityRecord} (hP : l.Pairwise Disj)
    (hk : getKey l k = none)
    (hv : ∀ c ∈ v.channels, ∀ q ∈ l, c ∉ q.2.channels) :
    (setKey l k v).Pairwise Disj := by
  rw [setKey_of_none v hk, List.pairwise_append]
  refine ⟨hP, List.pairwise_singleton _ _, ?_⟩
  intro q hq q' hq'
  have hq'' : q' = (k, v) := by simpa using hq'
  subst hq''
  intro c hcq hcv
  exact hv c hcv q hq hcq

theorem keysNodup_setKey {l : List (String × IdentityRecord)} {k : String}
    (v : IdentityRecord) (hnd : (l.map Prod.fst).Nodup) :
    ((setKey l k v).map Prod.fst).Nodup := by
  cases hk : getKey l k with
  | some r => rw [map_fst_setKey_of_some v hk]; exact hnd
  | none =>
    rw [setKey_of_none v hk, List.map_append]
    have hkn : k ∉ l.map Prod.fst := getKey_eq_none_iff.mp hk
    simp [List.nodup_append, hnd, hkn]

/-- `resolve_canonical_id` preserves unique keys and channel
disjointness. -/
theorem inv_resolve {ch pid : String} {ons : List String}
    {nt : Option String} {now : Nat} {s s' : IdentityStore} {c : String}
    {b : Bool} (hnd : KeysNodup s) (hcu : ChanUniq s)
    (h : resolve_canonical_id ch pid ons nt now s = .ok (c, s', b)) :
    KeysNodup s' ∧ ChanUniq s' := by
  unfold KeysNodup ChanUniq at *
  rcases resolve_ok_cases h with
    ⟨hs', -, -⟩ | ⟨hs', -, -, -⟩ |
    ⟨r, hl, hons, hf, ⟨-, hs', -⟩ | ⟨-, -, hs'⟩⟩ |
    ⟨hl, hons, hf, -, -, hs'⟩
  · exact hs' ▸ ⟨hnd, hcu⟩
  · exact hs' ▸ ⟨hnd, hcu⟩
  · exact hs' ▸ ⟨hnd, hcu⟩
  · subst hs'
    have hmem : (c, r) ∈ s.identities := List.mem_of_find?_eq_some hf
    have hk : getKey s.identities c = some r := getKey_of_mem_nodup hnd hmem
    have hfresh := lookupChannel_none_elim hl
    refine ⟨keysNodup_setKey _ hnd, ?_⟩
    refine chanUniq_setKey hcu hk ?_
    intro c' hc'
    rcases List.mem_append.mp hc' with hc' | hc'
    · exact .inl hc'
    · have : c' = mkChannelId ch pid := by simpa using hc'
      subst this
      exact .inr hfresh
  · subst hs'
    have hfresh := lookupChannel_none_elim hl
    have hnd1 : ((setKey s.identities c
        (freshOwnerRecord c now)).map Prod.fst).Nodup :=
      keysNodup_setKey _ hnd
    have hcu1 : (setKey s.identities c
        (freshOwnerRecord c now)).Pairwise Disj := by
      cases hk : getKey s.identities c with
      | some r0 =>
        refine chanUniq_setKey hcu hk ?_
        intro c' hc'
        simp [freshOwnerRecord] at hc'
      | none =>
        refine chanUniq_setKey_none hcu hk ?_
        intro c' hc'
        simp [freshOwnerRecord] at hc'
    refine ⟨keysNodup_setKey _ hnd1, ?_⟩
    refine chanUniq_setKey hcu1 (getKey_setKey_self _ _ _) ?_
    intro c' hc'
    have hc'' : c' = mkChannelId ch pid := by simpa using hc'
    subst hc''
    refine .inr ?_
    intro q hq
    rcases mem_setKey hq with hq' | hq'
    · exact hfresh q hq'
    · subst hq'
      simp [freshOwnerRecord]

/-- `remove_channel` preserves unique keys and channel disjointness. -/
theorem inv_remove {cid ch pid : String} {now : Nat}
    {s s' : IdentityStore} {b : Bool} (hnd : KeysNodup s)
    (hcu : ChanUniq s)
    (h : remove_channel cid ch pid now s = .ok (s', b)) :
    KeysNodup s' ∧ ChanUniq s' := by
  unfold KeysNodup ChanUniq at *
  rcases remove_channel_ok_cases h with
    ⟨scid, hs, ⟨hs', -⟩ | ⟨r, hk, hmem, -, hs'⟩⟩
  · exact hs' ▸ ⟨hnd, hcu⟩
  · subst hs'
    refine ⟨keysNodup_setKey _ hnd, ?_⟩
    refine chanUniq_setKey hcu hk ?_
    intro c' hc'
    exact .inl ((r.channels.erase_sublist (mkChannelId ch pid)).subset hc')

/-- Every store reachable by resolve/remove alone has unique keys and
pairwise disjoint channel lists. -/
theorem reachRR_inv : ∀ s, ReachRR s → KeysNodup s ∧ ChanUniq s := by
  intro s h
  induction h with
  | empty =>
    exact ⟨by simp [KeysNodup, emptyStore], by simp [ChanUniq, emptyStore]⟩
  | resolveStep hr heq ih => exact inv_resolve ih.1 ih.2 heq
  | removeStep hr heq ih => exact inv_remove ih.1 ih.2 heq

/-- C1 (counterexample): global channel uniqueness does not hold for every
store reachable from the empty store by the three public operations —
`add_channel` checks only the target record, so registering the same
channel string `"discord:x"` under the two canonical ids `"alice"` and
`"bob"` stores it in two records. -/
theorem C1_counterexample :
    Reach ⟨"1.0",
      [("alice", ⟨"alice", false, "Alice", ["discord:x"], 0, 0⟩),
       ("bob", ⟨"bob", false, "Bob", ["discord:x"], 0, 0⟩)]⟩ ∧
    ¬ ChanUniq ⟨"1.0",
      [("alice", ⟨"alice", false, "Alice", ["discord:x"], 0, 0⟩),
       ("bob", ⟨"bob", false, "Bob", ["discord:x"], 0, 0⟩)]⟩ := by
  constructor
  · have h1 : add_channel "alice" "discord" "x" none 0 emptyStore =
        .ok (⟨"1.0", [("alice",
          ⟨"alice", false, "Alice", ["discord:x"], 0, 0⟩)]⟩, true) := by
      decide
    have h2 : add_channel "bob" "discord" "x" none 0
        ⟨"1.0", [("alice",
          ⟨"alice", false, "Alice", ["discord:x"], 0, 0⟩)]⟩ =
        .ok (⟨"1.0",
          [("alice", ⟨"alice", false, "Alice", ["discord:x"], 0, 0⟩),
           ("bob", ⟨"bob", false, "Bob", ["discord:x"], 0, 0⟩)]⟩,
          true) := by
      decide
    exact Reach.addStep (Reach.addStep Reach.empty h1) h2
  · decide

/-- C1 (amended): every store reachable from the empty store by
`resolve_canonical_id` and `remove_channel` calls satisfies global channel
uniqueness — the resolver adds a channel string only after the global
lookup misses, and removal only shrinks channel lists.  (`add_channel`
does not preserve the invariant; see the counterexample.) -/
theorem C1_amended_channel_uniqueness :
    ∀ s : IdentityStore, ReachRR s → ChanUniq s :=
  fun s h => (reachRR_inv s h).2

theorem C1_witness :
    ChanUniq ⟨"1.0", [("owner",
      ⟨"owner", true, "Owner", ["telegram:123"], 0, 0⟩)]⟩ := by
  have heq : resolve_canonical_id "telegram" "123" ["123"] none 0
      emptyStore = .ok ("owner", ⟨"1.0", [("owner",
        ⟨"owner", true, "Owner", ["telegram:123"], 0, 0⟩)]⟩, true) := by
    decide
  exact C1_amended_channel_uniqueness _
    (ReachRR.resolveStep ReachRR.empty heq)

end IdentityResolver

